import Mathlib

/-!
# rgap: presence store (`listener/group.go`) and UDP ingestion (`udpsource.go`)

A shallow embedding of the group presence store and of the UDP receive loop.

Conventions of the embedding:

* an instant (`time.Time`) and a span (`time.Duration`) are integers counting
  nanoseconds; an instant counts from the Unix epoch. A `Duration` is a Go
  `int64`: `Time.Sub` saturates at the least and the greatest `int64`, and
  `Duration.Abs` sends the least one to the greatest one, as in Go;
* every operation that reads the clock (`time.Now()`) takes the reading as an
  argument. `Ingest` takes three: its own, the one the cache takes in `Get`
  and the one the cache takes in `Set`; `List`, `Start` and `Ready` take one;
* a method that mutates its receiver returns the new receiver;
* the TTL cache `github.com/jellydator/ttlcache/v3` is an external library; the
  part of it the store uses (`New`, `Get`, `Set`, `Items`, `Item.IsExpired`,
  `Item.ExpiresAt`) is transcribed below for the options the store passes
  (`WithDisableTouchOnHit`, no default TTL, no capacity, no loader);
* the wire codec (`Announcement`, `CheckSignature`, `UnmarshalBinary`, `V1`)
  is declared in other files of the repository and enters as a parameter.
-/

namespace Rgap

/-! ## Time -/

/-- An instant, Go `time.Time`: nanoseconds since the Unix epoch. -/
abbrev Time := Int

/-- A span of time, Go `time.Duration`: nanoseconds. -/
abbrev Duration := Int

/-- The zero instant `time.Time{}`: January 1 of year 1, 00:00 UTC. -/
def zeroTime : Time := -62135596800000000000

/-- One second as a `Duration`. -/
def Second : Duration := 1000000000

/-- Go `time.UnixMicro`: the instant `usec` microseconds after the epoch. -/
def UnixMicro (usec : Int) : Time := usec * 1000

/-- The greatest `Duration`, the greatest `int64`. -/
def maxDuration : Duration := 9223372036854775807

/-- The least `Duration`, the least `int64`. -/
def minDuration : Duration := -9223372036854775808

/-- Go `Time.Sub`: the span `t - u` when it fits a `Duration`, else the least
`Duration` when `t` is before `u` and the greatest one otherwise. -/
def Sub (t u : Time) : Duration :=
  if minDuration ≤ t - u ∧ t - u ≤ maxDuration then t - u
  else if t < u then minDuration
  else maxDuration

/-- Go `Time.Add`. -/
def Add (t : Time) (d : Duration) : Time := t + d

/-- Go `Duration.Abs`: the least `Duration` goes to the greatest one. -/
def Abs (d : Duration) : Duration :=
  if 0 ≤ d then d
  else if d = minDuration then maxDuration
  else -d

/-! ## Values declared in other packages -/

/-- An error value; the message is kept. -/
abbrev Error := String

/-- An address, Go `netip.Addr`, identified with the 128-bit number it holds. -/
abbrev Addr := Nat

/-- Go `netip.AddrFrom16`: the address made of the sixteen announced bytes. -/
def AddrFrom16 (b : Nat) : Addr := b

/-- Modelled from the spec: the key type is declared in package `psk`;
the spec calls it an opaque symmetric key bound to one group. -/
structure PSK where
  key : List Nat
deriving DecidableEq, Repr

/-- Modelled from the spec: the announcement payload is declared in package
`protocol`; the fields are the ones `Ingest` reads (`Version`, `Timestamp` in
microseconds since the epoch, `AnnouncedAddress` of sixteen bytes). -/
structure AnnouncementData where
  Version : Nat
  Timestamp : Int
  AnnouncedAddress : Nat
deriving DecidableEq, Repr

/-- Modelled from the spec: one decoded datagram, the signed data followed by
its signature. -/
structure Announcement where
  Data : AnnouncementData
  Signature : List Nat
deriving DecidableEq, Repr

/-- The part of the protocol package `Ingest` relies on: the version constant
`protocol.V1` and the method `Announcement.CheckSignature`, which answers with
a verdict and an error (`none` for Go `nil`). -/
structure Protocol where
  V1 : Nat
  CheckSignature : Announcement → PSK → Bool × Option Error

/-- Modelled from the spec: the constant `announcementSize` is declared beside
the codec; the wire layout of the spec fixes it at 57 bytes. -/
def announcementSize : Nat := 57

/-- The decoder the receive loop relies on: `UnmarshalBinary buf` gives the
contents of the freshly allocated announcement after the call, and the error
the call returned (`none` for Go `nil`). -/
structure Codec where
  UnmarshalBinary : List Nat → Announcement × Option Error

/-! ## The TTL cache (external library, as the store configures it) -/

/-- The constant `ttlcache.NoTTL`. -/
def NoTTL : Duration := -1

/-- The constant `ttlcache.DefaultTTL`. -/
def DefaultTTL : Duration := 0

/-- The cache-wide TTL `c.options.ttl`; `New` without `WithTTL` leaves it 0. -/
def optionsTTL : Duration := 0

/-- A cache item: its key, the TTL it was stored with and its expiry. -/
structure Item where
  key : Addr
  ttl : Duration
  expiresAt : Time
deriving DecidableEq, Repr

/-- Library `Item.IsExpired`: an item with a non-positive TTL never expires;
otherwise it is expired once its expiry lies before the clock reading. -/
def Item.IsExpired (item : Item) (now : Time) : Bool :=
  if item.ttl ≤ 0 then false else decide (item.expiresAt < now)

/-- Library `newItem` followed by `touch` (the same fields result from
`Item.update` on an existing item): the expiry is the zero instant unless the
TTL is positive, in which case it is the clock reading plus the TTL. -/
def newItem (key : Addr) (ttl : Duration) (now : Time) : Item :=
  { key := key, ttl := ttl, expiresAt := if ttl ≤ 0 then zeroTime else Add now ttl }

/-- The cache: the items of its key-to-item map. -/
structure Cache where
  values : List Item
deriving DecidableEq, Repr

/-- Library `ttlcache.New`: an empty cache. -/
def Cache.New : Cache := { values := [] }

/-- The map lookup `c.items.values[key]`. -/
def Cache.lookup (c : Cache) (key : Addr) : Option Item :=
  c.values.find? (fun item => decide (item.key = key))

/-- Library `Cache.Get` with touch-on-hit disabled and no loader: the item
stored under the key, or `none` (Go `nil`) when there is none or it is expired. -/
def Cache.Get (c : Cache) (now : Time) (key : Addr) : Option Item :=
  match c.lookup key with
  | none => none
  | some item => if item.IsExpired now then none else some item

/-- Library `Cache.Set`: a TTL equal to `DefaultTTL` is replaced by the
cache-wide TTL; the key then maps to an item with that TTL, touched at the
clock reading. -/
def Cache.Set (c : Cache) (now : Time) (key : Addr) (ttl : Duration) : Cache :=
  let ttl := if ttl = DefaultTTL then optionsTTL else ttl
  { values := newItem key ttl now :: c.values.filter (fun item => decide (item.key ≠ key)) }

/-- Library `Cache.Items`: the items that are not expired at the clock reading. -/
def Cache.Items (c : Cache) (now : Time) : List Item :=
  c.values.filter (fun item => !item.IsExpired now)

/-- Library `Cache.DeleteExpired`, what one tick of the background sweeper
does: the expired items are removed. -/
def Cache.DeleteExpired (c : Cache) (now : Time) : Cache :=
  { values := c.values.filter (fun item => !item.IsExpired now) }

/-! ## `listener/group.go` -/

/-- The configuration record `GroupConfig`; `PSK` is a pointer, `none` is nil. -/
structure GroupConfig where
  ID : Nat
  PSK : Option PSK
  Expire : Duration
  ClockSkew : Duration
  ReadinessDelay : Duration
deriving DecidableEq, Repr

/-- The record `Group`. -/
structure Group where
  id : Nat
  psk : PSK
  expire : Duration
  clockSkew : Duration
  readinessDelay : Duration
  addrSet : Cache
  readyAt : Time
deriving DecidableEq, Repr

/-- The record `groupItem`, what `List` hands out. -/
structure groupItem where
  address : Addr
  expiresAt : Time
deriving DecidableEq, Repr

/-- The constructor `GroupFromConfig`. -/
def GroupFromConfig (cfg : GroupConfig) : Except Error Group :=
  match cfg.PSK with
  | none => .error ("group " ++ toString cfg.ID ++ ": PSK is not set")
  | some psk =>
    if cfg.Expire ≤ 0 then
      .error ("group " ++ toString cfg.Expire ++ ": incorrect expiration time")
    else
      let g : Group :=
        { id := cfg.ID
          psk := psk
          expire := cfg.Expire
          clockSkew := cfg.ClockSkew
          readinessDelay := cfg.ReadinessDelay
          addrSet := Cache.New
          readyAt := zeroTime }
      let g := if g.clockSkew ≤ 0 then { g with clockSkew := g.expire } else g
      let g := if g.clockSkew > g.expire then { g with clockSkew := g.expire } else g
      .ok g

/-- The method `Group.ID`. -/
def Group.ID (g : Group) : Nat := g.id

/-- The method `Group.Start` at clock reading `now` (the sweeper it launches
runs beside the group and is not part of the returned record). -/
def Group.Start (g : Group) (now : Time) : Group :=
  { g with readyAt := Add now g.readinessDelay }

/-- The clock readings of one call of `Ingest`: `now` is the `time.Now()` of
`Ingest` itself, `atGet` the reading the cache takes when `Get` tests the item
for expiry, `atSet` the reading the cache takes when `Set` touches the item. -/
structure Readings where
  now : Time
  atGet : Time
  atSet : Time
deriving DecidableEq, Repr

/-- The readings of a call during which the clock stands at `t`. -/
def Readings.frozen (t : Time) : Readings := { now := t, atGet := t, atSet := t }

/-- The method `Group.Ingest` under the clock readings `r`: the group
afterwards and the returned error. -/
def Group.Ingest (P : Protocol) (g : Group) (r : Readings) (a : Announcement) :
    Group × Option Error :=
  if a.Data.Version ≠ P.V1 then (g, none)
  else
    let now := r.now
    let announceTime := UnixMicro a.Data.Timestamp
    let timeDrift := Sub now announceTime
    if Abs timeDrift > g.clockSkew then (g, none)
    else
      match P.CheckSignature a g.psk with
      | (_, some err) => (g, some ("announce verification failed: " ++ err))
      | (false, none) => (g, none)
      | (true, none) =>
        let address := AddrFrom16 a.Data.AnnouncedAddress
        let expireAt := Add announceTime g.expire
        match g.addrSet.Get r.atGet address with
        | none => ({ g with addrSet := g.addrSet.Set r.atSet address (Sub expireAt now) }, none)
        | some setItem =>
          if setItem.expiresAt < expireAt then
            ({ g with addrSet := g.addrSet.Set r.atSet address (Sub expireAt now) }, none)
          else (g, none)

/-- The method `Group.List` at clock reading `now`, the reading of its own
`IsExpired` test. -/
def Group.List (g : Group) (now : Time) : List groupItem :=
  (g.addrSet.Items now).filterMap (fun item =>
    if item.IsExpired now then none
    else some { address := item.key, expiresAt := item.expiresAt })

/-- The method `Group.Ready` at clock reading `now`. -/
def Group.Ready (g : Group) (now : Time) : Bool := decide (now > g.readyAt)

/-- A run of `Ingest` calls, each with its own clock readings; the group after
the last one. -/
def IngestAll (P : Protocol) (g : Group) : List (Readings × Announcement) → Group
  | [] => g
  | (r, a) :: rest => IngestAll P (Group.Ingest P g r a).1 rest

/-! ## `udpsource.go` -/

/-- The record `UDPSource` (the callback is observed through the calls the
loop makes; context and channel belong to the running loop). -/
structure UDPSource where
  address : String
  label : String
deriving DecidableEq, Repr

/-- What one turn of the receive loop meets. -/
inductive ReadEvent where
  /-- The loop test finds the context cancelled. -/
  | cancelled
  /-- The read fails; `ctxDone` tells whether the context is cancelled then. -/
  | readError (ctxDone : Bool)
  /-- The read delivers the bytes `buf` (`n` is their number). -/
  | datagram (buf : List Nat)
deriving DecidableEq, Repr

/-- The method `UDPSource.readLoop` run against the events the socket and the
context produce, one per turn: the callback invocations, in order. The loop
leaves on cancellation; when the events run out the run is cut there. -/
def UDPSource.readLoop (C : Codec) (s : UDPSource) : List ReadEvent → List (String × Announcement)
  | [] => []
  | .cancelled :: _ => []
  | .readError true :: _ => []
  | .readError false :: rest => UDPSource.readLoop C s rest
  | .datagram buf :: rest =>
    if buf.length ≠ announcementSize then UDPSource.readLoop C s rest
    else
      let ann := (C.UnmarshalBinary buf).1
      (s.label, ann) :: UDPSource.readLoop C s rest

/-! ## Concrete inputs used by the evaluations below -/

/-- A protocol instance for the evaluations: version 1, and a signature check
that compares the signature with the key, and fails with an error on an empty
key. -/
def demoProtocol : Protocol :=
  { V1 := 1
    CheckSignature := fun a k =>
      if k.key = [] then (false, some "unusable key") else (decide (a.Signature = k.key), none) }

/-- A key for the evaluations. -/
def demoKey : PSK := { key := [1, 2, 3] }

/-- A configuration with an expiry of ten seconds, the clock skew left unset
and a readiness delay of five seconds. -/
def demoConfig : GroupConfig :=
  { ID := 7, PSK := some demoKey, Expire := 10 * Second, ClockSkew := 0,
    ReadinessDelay := 5 * Second }

/-- The group `GroupFromConfig` builds from `demoConfig`. -/
def demoGroup : Group :=
  { id := 7, psk := demoKey, expire := 10 * Second, clockSkew := 10 * Second,
    readinessDelay := 5 * Second, addrSet := Cache.New, readyAt := zeroTime }

/-- A correctly signed version-1 announcement of address `addr`, stamped
`usec` microseconds after the epoch. -/
def demoAnnouncement (usec : Int) (addr : Nat) : Announcement :=
  { Data := { Version := 1, Timestamp := usec, AnnouncedAddress := addr },
    Signature := [1, 2, 3] }

/-- The ten-second group after it has taken, at clock reading 100 s, an
announcement of address 5 stamped 100 s. -/
def demoStored : Group :=
  (demoGroup.Ingest demoProtocol (Readings.frozen (100 * Second))
    (demoAnnouncement 100000000 5)).1

/-- The ten-second group after it has taken, at clock reading 100 s, an
announcement of address 5 stamped 90 s, ten seconds old. -/
def demoBoundary : Group :=
  (demoGroup.Ingest demoProtocol (Readings.frozen (100 * Second))
    (demoAnnouncement 90000000 5)).1

/-- A decoder for the evaluations: it reads the version from the first byte and
fails on every version but 1. -/
def demoCodec : Codec :=
  { UnmarshalBinary := fun buf =>
      if buf.head? = some 1 then
        ({ Data := { Version := 1, Timestamp := 0, AnnouncedAddress := 0 }, Signature := [] }, none)
      else
        ({ Data := { Version := 0, Timestamp := 0, AnnouncedAddress := 0 }, Signature := [] },
          some "unknown version") }

/-- A source for the evaluations. -/
def demoSource : UDPSource := { address := "239.2.3.4:8271", label := "lan" }

/-- The store `demoStored` after it has also taken, at clock reading 105 s (the
cache reading the clock 200 ns and 400 ns later), an announcement of address 6
stamped 105 s. -/
def demoTwo : Group :=
  (demoStored.Ingest demoProtocol
    { now := 105 * Second, atGet := 105 * Second + 200, atSet := 105 * Second + 400 }
    (demoAnnouncement 105000000 6)).1

/-- A configuration whose expiry is the greatest `Duration`, the clock skew left
unset. -/
def hugeConfig : GroupConfig :=
  { ID := 8, PSK := some demoKey, Expire := maxDuration, ClockSkew := 0, ReadinessDelay := 0 }

/-- The group `GroupFromConfig` builds from `hugeConfig`: its clock skew is the
greatest `Duration`. -/
def hugeGroup : Group :=
  { id := 8, psk := demoKey, expire := maxDuration, clockSkew := maxDuration,
    readinessDelay := 0, addrSet := Cache.New, readyAt := zeroTime }

/-- A configuration with a readiness delay of minus five seconds. -/
def hastyConfig : GroupConfig :=
  { ID := 9, PSK := some demoKey, Expire := 10 * Second, ClockSkew := 0,
    ReadinessDelay := -(5 * Second) }

/-- The group `GroupFromConfig` builds from `hastyConfig`. -/
def hastyGroup : Group :=
  { id := 9, psk := demoKey, expire := 10 * Second, clockSkew := 10 * Second,
    readinessDelay := -(5 * Second), addrSet := Cache.New, readyAt := zeroTime }

/-- The gates of `Ingest` as the claims word them: version, timestamp within
`clockSkew` of the clock reading, signature. -/
def Accepted (P : Protocol) (g : Group) (now : Time) (a : Announcement) : Prop :=
  a.Data.Version = P.V1 ∧ |now - UnixMicro a.Data.Timestamp| ≤ g.clockSkew ∧
    P.CheckSignature a g.psk = (true, none)

/-- The gates of `Ingest` as the code computes them, on the saturated drift. -/
def Passes (P : Protocol) (g : Group) (now : Time) (a : Announcement) : Prop :=
  a.Data.Version = P.V1 ∧ Abs (Sub now (UnixMicro a.Data.Timestamp)) ≤ g.clockSkew ∧
    P.CheckSignature a g.psk = (true, none)

/-! ## Auxiliary facts -/

/-- Short of the greatest `Duration`, the code's gate on the saturated drift is
the gate on the true drift. -/
theorem gate_iff (t u : Time) (skew : Duration) (h : skew < maxDuration) :
    Abs (Sub t u) ≤ skew ↔ |t - u| ≤ skew := by
  rw [abs_le]
  unfold Abs Sub maxDuration minDuration at *
  simp only [Time, Duration] at *
  split_ifs <;> omega

/-- The saturated drift never exceeds the greatest `Duration` in absolute value. -/
theorem Abs_Sub_le (t u : Time) : Abs (Sub t u) ≤ maxDuration := by
  unfold Abs Sub maxDuration minDuration at *
  simp only [Time, Duration] at *
  split_ifs <;> omega

/-- The saturated span has the sign of the true span. -/
theorem Sub_pos_iff (t u : Time) : 0 < Sub t u ↔ u < t := by
  unfold Sub maxDuration minDuration at *
  simp only [Time, Duration] at *
  split_ifs <;> omega

/-- A span that fits a `Duration` is not changed by `Sub`. -/
theorem Sub_exact (t u : Time) (h1 : minDuration ≤ t - u) (h2 : t - u ≤ maxDuration) :
    Sub t u = t - u := by
  unfold Sub
  simp [h1, h2]

/-- The groups used in the evaluations are the ones `GroupFromConfig` returns
for their configurations. -/
theorem demoGroups_fromConfig :
    GroupFromConfig demoConfig = .ok demoGroup ∧ GroupFromConfig hugeConfig = .ok hugeGroup ∧
    GroupFromConfig hastyConfig = .ok hastyGroup :=
  ⟨rfl, rfl, rfl⟩

/-- `Ingest` either leaves the group as it is, or the announcement passed the
three gates, the only change is one `Set` on the store, and no error is
returned. -/
theorem Ingest_cases (P : Protocol) (g : Group) (r : Readings) (a : Announcement) :
    (g.Ingest P r a).1 = g ∨
    (Passes P g r.now a ∧ (g.Ingest P r a).2 = none ∧
      (g.Ingest P r a).1 =
        { g with addrSet := (g.addrSet.Set r.atSet (AddrFrom16 a.Data.AnnouncedAddress)
            (Sub (Add (UnixMicro a.Data.Timestamp) g.expire) r.now)) }) := by
  unfold Group.Ingest Passes
  by_cases hv : a.Data.Version = P.V1
  · by_cases hs : Abs (Sub r.now (UnixMicro a.Data.Timestamp)) > g.clockSkew
    · simp [hv, hs]
    · have hs2 : Abs (Sub r.now (UnixMicro a.Data.Timestamp)) ≤ g.clockSkew := not_lt.mp hs
      simp only [hv, hs, ne_eq, not_true_eq_false, if_false]
      rcases hc : P.CheckSignature a g.psk with ⟨ok, err⟩
      cases err with
      | some e => simp
      | none =>
        cases ok with
        | false => simp
        | true =>
          simp only []
          cases hg : g.addrSet.Get r.atGet (AddrFrom16 a.Data.AnnouncedAddress) with
          | none => simp [hs2]
          | some it =>
            simp only []
            split
            · simp [hs2]
            · simp
  · simp [hv]

/-- `Ingest` touches no field of the group but the store. -/
theorem Ingest_frame (P : Protocol) (g : Group) (r : Readings) (a : Announcement) :
    (g.Ingest P r a).1 = { g with addrSet := (g.Ingest P r a).1.addrSet } := by
  rcases Ingest_cases P g r a with h | ⟨_, _, h⟩
  · rw [h]
  · rw [h]

/-- A configuration with a key and a positive expiry yields a group; its
fields are spelled out. -/
theorem GroupFromConfig_ok (cfg : GroupConfig) (k : PSK) (hk : cfg.PSK = some k)
    (he : 0 < cfg.Expire) :
    GroupFromConfig cfg = .ok
      { id := cfg.ID, psk := k, expire := cfg.Expire,
        clockSkew := if cfg.ClockSkew ≤ 0 ∨ cfg.Expire < cfg.ClockSkew then cfg.Expire
          else cfg.ClockSkew,
        readinessDelay := cfg.ReadinessDelay, addrSet := Cache.New, readyAt := zeroTime } := by
  unfold GroupFromConfig
  have he2 : ¬ cfg.Expire ≤ 0 := not_le.mpr he
  simp only [hk, he2, if_false]
  by_cases h1 : cfg.ClockSkew ≤ 0
  · have h3 : ¬ cfg.Expire > cfg.Expire := lt_irrefl _
    simp [h1, h3]
  · by_cases h2 : cfg.Expire < cfg.ClockSkew
    · simp [h1, h2]
    · simp [h1, h2]

/-- `GroupFromConfig` fails exactly without a key or with a non-positive expiry. -/
theorem GroupFromConfig_error_iff (cfg : GroupConfig) :
    (∃ e, GroupFromConfig cfg = .error e) ↔ (cfg.PSK = none ∨ cfg.Expire ≤ 0) := by
  constructor
  · rintro ⟨e, he⟩
    cases hk : cfg.PSK with
    | none => exact Or.inl rfl
    | some k =>
      right
      by_contra hpos
      rw [GroupFromConfig_ok cfg k hk (not_le.mp hpos)] at he
      cases he
  · intro h
    unfold GroupFromConfig
    cases hk : cfg.PSK with
    | none => exact ⟨_, rfl⟩
    | some k =>
      rcases h with h | h
      · rw [hk] at h
        cases h
      · simp only [h, if_true]
        exact ⟨_, rfl⟩

/-- What `Ingest` does with an announcement that passes the three gates. -/
theorem Ingest_of_passes (P : Protocol) (g : Group) (r : Readings) (a : Announcement)
    (h : Passes P g r.now a) :
    g.Ingest P r a =
      (match g.addrSet.Get r.atGet (AddrFrom16 a.Data.AnnouncedAddress) with
        | none => ({ g with addrSet := (g.addrSet.Set r.atSet (AddrFrom16 a.Data.AnnouncedAddress)
            (Sub (Add (UnixMicro a.Data.Timestamp) g.expire) r.now)) }, none)
        | some setItem =>
          if setItem.expiresAt < Add (UnixMicro a.Data.Timestamp) g.expire then
            ({ g with addrSet := (g.addrSet.Set r.atSet (AddrFrom16 a.Data.AnnouncedAddress)
              (Sub (Add (UnixMicro a.Data.Timestamp) g.expire) r.now)) }, none)
          else (g, none)) := by
  obtain ⟨hv, hs, hc⟩ := h
  have hs2 : ¬ Abs (Sub r.now (UnixMicro a.Data.Timestamp)) > g.clockSkew := not_lt.mpr hs
  unfold Group.Ingest
  simp only [hv, hs2, hc, ne_eq, not_true_eq_false, if_false]

/-- What `Ingest` does with an announcement that fails one of the gates: the
group is left as it is. -/
theorem Ingest_of_not_passes (P : Protocol) (g : Group) (r : Readings) (a : Announcement)
    (h : ¬ Passes P g r.now a) : (g.Ingest P r a).1 = g := by
  rcases Ingest_cases P g r a with h1 | ⟨h1, _⟩
  · exact h1
  · exact absurd h1 h

/-- Short of the greatest `Duration`, the gates the code computes are the gates
the claims word. -/
theorem Passes_iff_Accepted (P : Protocol) (g : Group) (now : Time) (a : Announcement)
    (hskew : g.clockSkew < maxDuration) : Passes P g now a ↔ Accepted P g now a := by
  unfold Passes Accepted
  rw [gate_iff _ _ _ hskew]

/-- The error `Ingest` returns is the wrapped error of the signature check,
consulted only behind the version gate and the gate on the saturated drift. -/
theorem Ingest_snd (P : Protocol) (g : Group) (r : Readings) (a : Announcement) :
    (g.Ingest P r a).2 =
      if a.Data.Version = P.V1 ∧ Abs (Sub r.now (UnixMicro a.Data.Timestamp)) ≤ g.clockSkew then
        (P.CheckSignature a g.psk).2.map (fun err => "announce verification failed: " ++ err)
      else none := by
  unfold Group.Ingest
  by_cases hv : a.Data.Version = P.V1
  · by_cases hs : Abs (Sub r.now (UnixMicro a.Data.Timestamp)) > g.clockSkew
    · have hs2 : ¬ Abs (Sub r.now (UnixMicro a.Data.Timestamp)) ≤ g.clockSkew := not_le.mpr hs
      simp [hv, hs, hs2]
    · have hs2 : Abs (Sub r.now (UnixMicro a.Data.Timestamp)) ≤ g.clockSkew := not_lt.mp hs
      simp only [hv, hs, hs2, ne_eq, not_true_eq_false, if_false, and_self, if_true]
      rcases hc : P.CheckSignature a g.psk with ⟨ok, err⟩
      cases err with
      | some e => simp
      | none =>
        cases ok with
        | false => simp
        | true =>
          simp only []
          cases hg : g.addrSet.Get r.atGet (AddrFrom16 a.Data.AnnouncedAddress) with
          | none => simp
          | some it =>
            simp only []
            split <;> simp
  · simp [hv]

/-- After `Set`, the key maps to the item `Set` made. -/
theorem lookup_Set_self (c : Cache) (now : Time) (key : Addr) (ttl : Duration) :
    (c.Set now key ttl).lookup key =
      some (newItem key (if ttl = DefaultTTL then optionsTTL else ttl) now) := by
  simp [Cache.Set, Cache.lookup, newItem]

/-- A key without an entry has nothing for `Get` to return. -/
theorem Get_of_lookup_none (c : Cache) (now : Time) (key : Addr) (h : c.lookup key = none) :
    c.Get now key = none := by
  simp [Cache.Get, h]

/-- `Ingest` keeps every field of the group but the store. -/
theorem Ingest_fields (P : Protocol) (g : Group) (r : Readings) (a : Announcement) :
    (g.Ingest P r a).1.id = g.id ∧ (g.Ingest P r a).1.psk = g.psk ∧
    (g.Ingest P r a).1.expire = g.expire ∧ (g.Ingest P r a).1.clockSkew = g.clockSkew ∧
    (g.Ingest P r a).1.readinessDelay = g.readinessDelay ∧
    (g.Ingest P r a).1.readyAt = g.readyAt := by
  rw [Ingest_frame]
  exact ⟨rfl, rfl, rfl, rfl, rfl, rfl⟩

/-- A run of `Ingest` calls keeps every field of the group but the store. -/
theorem IngestAll_fields (P : Protocol) (ops : List (Readings × Announcement)) (g : Group) :
    (IngestAll P g ops).id = g.id ∧ (IngestAll P g ops).psk = g.psk ∧
    (IngestAll P g ops).expire = g.expire ∧ (IngestAll P g ops).clockSkew = g.clockSkew ∧
    (IngestAll P g ops).readinessDelay = g.readinessDelay ∧
    (IngestAll P g ops).readyAt = g.readyAt := by
  induction ops generalizing g with
  | nil => exact ⟨rfl, rfl, rfl, rfl, rfl, rfl⟩
  | cons op rest ih =>
    obtain ⟨r, a⟩ := op
    obtain ⟨h1, h2, h3, h4, h5, h6⟩ := ih (g.Ingest P r a).1
    obtain ⟨k1, k2, k3, k4, k5, k6⟩ := Ingest_fields P g r a
    simp only [IngestAll]
    exact ⟨h1.trans k1, h2.trans k2, h3.trans k3, h4.trans k4, h5.trans k5, h6.trans k6⟩

/-- An item that is expired at some instant is expired at every later one. -/
theorem IsExpired_mono (item : Item) (t now : Time) (ht : t ≤ now)
    (h : item.IsExpired t = true) : item.IsExpired now = true := by
  unfold Item.IsExpired at *
  split
  · rename_i httl
    simp [httl] at h
  · rename_i httl
    simp only [httl, if_false, decide_eq_true_eq] at h
    simp only [decide_eq_true_eq]
    exact lt_of_lt_of_le h ht

/-- What `List` returns, as one filter over the store. -/
theorem mem_List_iff (g : Group) (now : Time) (it : groupItem) :
    it ∈ g.List now ↔
      ∃ item ∈ g.addrSet.values, item.IsExpired now = false ∧
        it = { address := item.key, expiresAt := item.expiresAt } := by
  unfold Group.List Cache.Items
  simp only [List.mem_filterMap, List.mem_filter, Bool.not_eq_true, Bool.not_eq_eq_eq_not,
    Bool.not_true]
  constructor
  · rintro ⟨item, ⟨hmem, hexp⟩, hf⟩
    simp only [hexp, Bool.false_eq_true, if_false, Option.some.injEq] at hf
    exact ⟨item, hmem, hexp, hf.symm⟩
  · rintro ⟨item, hmem, hexp, hit⟩
    refine ⟨item, ⟨hmem, hexp⟩, ?_⟩
    simp [hexp, hit]

/-- After `Set`, every other key maps to what it mapped to before. -/
theorem lookup_Set_other (c : Cache) (now : Time) (key other : Addr) (ttl : Duration)
    (h : other ≠ key) : (c.Set now key ttl).lookup other = c.lookup other := by
  unfold Cache.Set Cache.lookup
  have hk : ¬ key = other := fun e => h e.symm
  simp only [newItem, ne_eq, decide_not, List.find?_cons, hk, decide_False]
  induction c.values with
  | nil => rfl
  | cons item rest ih =>
    by_cases hik : item.key = key
    · have hio : ¬ item.key = other := fun e => h (e.symm.trans hik)
      have hio2 : ¬ key = other := hk
      simp only [List.filter_cons, hik, decide_True, Bool.not_true, Bool.false_eq_true, if_false,
        List.find?_cons, hio2, decide_False, ih]
    · by_cases hio : item.key = other
      · have hok : ¬ other = key := h
        simp only [List.filter_cons, hio, hok, decide_False, Bool.not_false, if_true,
          List.find?_cons, decide_True]
      · simp only [List.filter_cons, hik, decide_False, Bool.not_false, if_true,
          List.find?_cons, hio, ih]

/-- With a positive TTL, the item `Set` makes expires the TTL after the clock
reading. -/
theorem newItem_pos (key : Addr) (ttl : Duration) (now : Time) (h : 0 < ttl) :
    newItem key (if ttl = DefaultTTL then optionsTTL else ttl) now =
      { key := key, ttl := ttl, expiresAt := now + ttl } := by
  have h0 : ¬ ttl = DefaultTTL := by
    unfold DefaultTTL
    exact ne_of_gt h
  have h1 : ¬ ttl ≤ 0 := not_le.mpr h
  simp [newItem, Add, h0, h1]

/-- Off the boundary the ratchet holds: an `Ingest` that rejects, or that accepts
an announcement whose candidate expiry lies after the clock reading by a span
that fits a `Duration`, never lowers the stored `expiresAt` of any address,
provided the clock does not run backwards during the call. -/
theorem Ingest_expiry_monotone (P : Protocol) (g : Group) (r : Readings) (a : Announcement)
    (addr : Addr) (old : Item)
    (hpos : ¬ Passes P g r.now a ∨ r.now < Add (UnixMicro a.Data.Timestamp) g.expire)
    (hfit : Add (UnixMicro a.Data.Timestamp) g.expire - r.now ≤ maxDuration)
    (hclock : r.now ≤ r.atGet ∧ r.atGet ≤ r.atSet)
    (hold : g.addrSet.lookup addr = some old) :
    ∃ new, (g.Ingest P r a).1.addrSet.lookup addr = some new ∧
      old.expiresAt ≤ new.expiresAt := by
  by_cases hacc : Passes P g r.now a
  · have hlt : r.now < Add (UnixMicro a.Data.Timestamp) g.expire := by
      rcases hpos with h | h
      · exact absurd hacc h
      · exact h
    have httl : 0 < Sub (Add (UnixMicro a.Data.Timestamp) g.expire) r.now :=
      (Sub_pos_iff _ _).mpr hlt
    have hval : Sub (Add (UnixMicro a.Data.Timestamp) g.expire) r.now =
        Add (UnixMicro a.Data.Timestamp) g.expire - r.now := by
      apply Sub_exact _ _ _ hfit
      unfold minDuration
      simp only [Time, Duration] at *
      omega
    by_cases hk : addr = AddrFrom16 a.Data.AnnouncedAddress
    · subst hk
      rw [Ingest_of_passes P g r a hacc]
      unfold Cache.Get
      rw [hold]
      simp only
      by_cases hexp : old.IsExpired r.atGet = true
      · simp only [hexp, if_true, lookup_Set_self, newItem_pos _ _ _ httl]
        refine ⟨_, rfl, ?_⟩
        unfold Item.IsExpired at hexp
        by_cases ho : old.ttl ≤ 0
        · simp [ho] at hexp
        · simp only [ho, if_false, decide_eq_true_eq] at hexp
          simp only [hval]
          simp only [Time, Duration] at *
          omega
      · simp only [hexp, Bool.false_eq_true, if_false]
        by_cases hlt2 : old.expiresAt < Add (UnixMicro a.Data.Timestamp) g.expire
        · simp only [hlt2, if_true, lookup_Set_self, newItem_pos _ _ _ httl]
          refine ⟨_, rfl, ?_⟩
          simp only [hval]
          simp only [Time, Duration] at *
          omega
        · simp only [hlt2, if_false]
          exact ⟨old, hold, le_refl _⟩
    · rcases Ingest_cases P g r a with h | ⟨_, _, h⟩
      · rw [h]
        exact ⟨old, hold, le_refl _⟩
      · rw [h]
        simp only [lookup_Set_other _ _ _ _ _ hk]
        exact ⟨old, hold, le_refl _⟩
  · rw [Ingest_of_not_passes P g r a hacc]
    exact ⟨old, hold, le_refl _⟩

/-- Off the boundary a first announcement is stored as intended: for an
address without an entry, an announcement that passes the gates and whose
candidate expiry `timestamp + expire` lies after the clock reading is stored
with the TTL `Sub (timestamp + expire) now` and expires that TTL after the
reading the cache takes in `Set`; `List` returns the address with that expiry
up to that instant and never after. When the clock stands during the call and
the TTL is not saturated, the expiry is `timestamp + expire`. -/
theorem Ingest_fresh_expiry (P : Protocol) (g : Group) (r : Readings) (a : Announcement)
    (hno : g.addrSet.lookup (AddrFrom16 a.Data.AnnouncedAddress) = none)
    (hacc : Passes P g r.now a) (hlt : r.now < Add (UnixMicro a.Data.Timestamp) g.expire) :
    (g.Ingest P r a).1.addrSet.lookup (AddrFrom16 a.Data.AnnouncedAddress) =
      some { key := AddrFrom16 a.Data.AnnouncedAddress,
             ttl := Sub (Add (UnixMicro a.Data.Timestamp) g.expire) r.now,
             expiresAt := r.atSet + Sub (Add (UnixMicro a.Data.Timestamp) g.expire) r.now } ∧
    (∀ t, t ≤ r.atSet + Sub (Add (UnixMicro a.Data.Timestamp) g.expire) r.now →
      ({ address := AddrFrom16 a.Data.AnnouncedAddress,
         expiresAt := r.atSet + Sub (Add (UnixMicro a.Data.Timestamp) g.expire) r.now } :
          groupItem) ∈ (g.Ingest P r a).1.List t) ∧
    (∀ t, r.atSet + Sub (Add (UnixMicro a.Data.Timestamp) g.expire) r.now < t →
      ∀ it ∈ (g.Ingest P r a).1.List t, it.address ≠ AddrFrom16 a.Data.AnnouncedAddress) ∧
    (r.atSet = r.now → Add (UnixMicro a.Data.Timestamp) g.expire - r.now ≤ maxDuration →
      r.atSet + Sub (Add (UnixMicro a.Data.Timestamp) g.expire) r.now =
        UnixMicro a.Data.Timestamp + g.expire) := by
  have httl : 0 < Sub (Add (UnixMicro a.Data.Timestamp) g.expire) r.now :=
    (Sub_pos_iff _ _).mpr hlt
  have h1 : ¬ Sub (Add (UnixMicro a.Data.Timestamp) g.expire) r.now ≤ 0 := not_le.mpr httl
  have hstep : (g.Ingest P r a).1 =
      { g with addrSet := (g.addrSet.Set r.atSet (AddrFrom16 a.Data.AnnouncedAddress)
        (Sub (Add (UnixMicro a.Data.Timestamp) g.expire) r.now)) } := by
    rw [Ingest_of_passes P g r a hacc, Get_of_lookup_none _ _ _ hno]
  have hvals : (g.Ingest P r a).1.addrSet.values =
      { key := AddrFrom16 a.Data.AnnouncedAddress,
        ttl := Sub (Add (UnixMicro a.Data.Timestamp) g.expire) r.now,
        expiresAt := r.atSet + Sub (Add (UnixMicro a.Data.Timestamp) g.expire) r.now } ::
        g.addrSet.values.filter (fun item => decide (item.key ≠ AddrFrom16 a.Data.AnnouncedAddress)) := by
    rw [hstep]
    simp only [Cache.Set, newItem_pos _ _ _ httl]
  refine ⟨?_, ?_, ?_, ?_⟩
  · rw [hstep]
    simp only [lookup_Set_self, newItem_pos _ _ _ httl]
  · intro t ht
    rw [mem_List_iff, hvals]
    refine ⟨_, List.mem_cons_self _ _, ?_, rfl⟩
    simp only [Item.IsExpired, h1, if_false, decide_eq_false_iff_not, not_lt]
    exact ht
  · intro t ht it hit
    rw [mem_List_iff, hvals] at hit
    obtain ⟨item, hmem, hnexp, rfl⟩ := hit
    rcases List.mem_cons.mp hmem with rfl | hrest
    · simp only [Item.IsExpired, h1, if_false, decide_eq_false_iff_not] at hnexp
      exact absurd ht hnexp
    · have := (List.mem_filter.mp hrest).2
      simpa using this
  · intro hfrozen hfit
    have hval : Sub (Add (UnixMicro a.Data.Timestamp) g.expire) r.now =
        Add (UnixMicro a.Data.Timestamp) g.expire - r.now := by
      apply Sub_exact _ _ _ hfit
      unfold minDuration
      simp only [Time, Duration] at *
      omega
    rw [hval, hfrozen]
    unfold Add
    simp only [Time, Duration] at *
    omega

/-- Off the boundary two announcements of one address ratchet to the larger
expiry: from a store without an entry for the address, two announcements that
pass the gates with candidate expiries `E1` and `E2`, each after the clock
reading of its own `Ingest` by a span that fits a `Duration`, leave the stored
`expiresAt` at `max E1 E2` when the clock stands during each call. The
statement is symmetric in the two, so it covers either order. -/
theorem Ingest_two_max (P : Protocol) (g : Group) (now1 now2 : Time) (a1 a2 : Announcement)
    (hsame : a2.Data.AnnouncedAddress = a1.Data.AnnouncedAddress)
    (hno : g.addrSet.lookup (AddrFrom16 a1.Data.AnnouncedAddress) = none)
    (hacc1 : Passes P g now1 a1) (hacc2 : Passes P g now2 a2)
    (hlt1 : now1 < UnixMicro a1.Data.Timestamp + g.expire)
    (hlt2 : now2 < UnixMicro a2.Data.Timestamp + g.expire)
    (hfit1 : UnixMicro a1.Data.Timestamp + g.expire - now1 ≤ maxDuration)
    (hfit2 : UnixMicro a2.Data.Timestamp + g.expire - now2 ≤ maxDuration) :
    ∃ item, (IngestAll P g [(Readings.frozen now1, a1), (Readings.frozen now2, a2)]).addrSet.lookup
        (AddrFrom16 a1.Data.AnnouncedAddress) = some item ∧
      item.expiresAt =
        max (UnixMicro a1.Data.Timestamp + g.expire) (UnixMicro a2.Data.Timestamp + g.expire) := by
  obtain ⟨hl1, -, -, hE1⟩ := Ingest_fresh_expiry P g (Readings.frozen now1) a1 hno hacc1 hlt1
  have hE1b := hE1 rfl hfit1
  rw [hE1b] at hl1
  obtain ⟨f1, f2, f3, f4, f5, f6⟩ := Ingest_fields P g (Readings.frozen now1) a1
  have hacc2b : Passes P (g.Ingest P (Readings.frozen now1) a1).1 (Readings.frozen now2).now a2 := by
    unfold Passes at *
    rw [f2, f4]
    exact hacc2
  have httl : 0 < Sub (Add (UnixMicro a2.Data.Timestamp) g.expire) now2 :=
    (Sub_pos_iff _ _).mpr hlt2
  have hval : Sub (Add (UnixMicro a2.Data.Timestamp) g.expire) now2 =
      UnixMicro a2.Data.Timestamp + g.expire - now2 := by
    apply Sub_exact _ _ _ hfit2
    unfold minDuration
    simp only [Time, Duration] at *
    omega
  have hexp : now2 + Sub (Add (UnixMicro a2.Data.Timestamp) g.expire) now2 =
      UnixMicro a2.Data.Timestamp + g.expire := by
    rw [hval]
    simp only [Time, Duration] at *
    omega
  simp only [IngestAll]
  rw [Ingest_of_passes P _ (Readings.frozen now2) a2 hacc2b, hsame, f3]
  unfold Cache.Get
  rw [hl1]
  simp only [Readings.frozen, Add] at *
  by_cases hexpired : Item.IsExpired
      { key := AddrFrom16 a1.Data.AnnouncedAddress,
        ttl := Sub (UnixMicro a1.Data.Timestamp + g.expire) now1,
        expiresAt := UnixMicro a1.Data.Timestamp + g.expire } now2 = true
  · simp only [hexpired, if_true, lookup_Set_self, newItem_pos _ _ _ httl, hexp]
    refine ⟨_, rfl, ?_⟩
    unfold Item.IsExpired at hexpired
    simp only at hexpired
    split at hexpired
    · cases hexpired
    · simp only [decide_eq_true_eq] at hexpired
      simp only [Time, Duration] at *
      rw [max_def]
      split <;> omega
  · simp only [hexpired, Bool.false_eq_true, if_false]
    by_cases hlt : UnixMicro a1.Data.Timestamp + g.expire < UnixMicro a2.Data.Timestamp + g.expire
    · simp only [hlt, if_true, lookup_Set_self, newItem_pos _ _ _ httl, hexp]
      refine ⟨_, rfl, ?_⟩
      simp only [Time, Duration] at *
      rw [max_def]
      split <;> omega
    · simp only [hlt, if_false]
      refine ⟨_, hl1, ?_⟩
      simp only [Time, Duration] at *
      rw [max_def]
      split <;> omega

/-- One turn of the receive loop on a delivered datagram: a datagram of the
announcement size reaches the callback with whatever the decoder left in the
announcement, whether or not the decoder returned an error; any other length
is dropped; the loop goes on either way. -/
theorem readLoop_datagram (C : Codec) (s : UDPSource) (buf : List Nat) (rest : List ReadEvent) :
    s.readLoop C (.datagram buf :: rest) =
      if buf.length = announcementSize then
        (s.label, (C.UnmarshalBinary buf).1) :: s.readLoop C rest
      else s.readLoop C rest := by
  by_cases h : buf.length = announcementSize
  · simp [UDPSource.readLoop, h]
  · simp [UDPSource.readLoop, h]

/-- The first-announcement fact applies: the ten-second group at clock reading
100 s stores an announcement stamped 100 s with expiry 110 s. -/
theorem Ingest_fresh_expiry_example :
    demoStored.addrSet.lookup 5 =
      some { key := 5, ttl := 10 * Second, expiresAt := 110 * Second } :=
  (Ingest_fresh_expiry demoProtocol demoGroup (Readings.frozen (100 * Second))
    (demoAnnouncement 100000000 5) rfl ⟨rfl, by decide, rfl⟩ (by decide)).1

/-- The ratchet fact applies: announcements stamped 101 s and 100 s, taken at
clock readings 105 s and 106 s, leave the larger expiry. -/
theorem Ingest_two_max_example :
    ∃ item, (IngestAll demoProtocol demoGroup
        [(Readings.frozen (105 * Second), demoAnnouncement 101000000 5),
         (Readings.frozen (106 * Second), demoAnnouncement 100000000 5)]).addrSet.lookup 5 =
          some item ∧
      item.expiresAt = max (111 * Second) (110 * Second) :=
  Ingest_two_max demoProtocol demoGroup (105 * Second) (106 * Second)
    (demoAnnouncement 101000000 5) (demoAnnouncement 100000000 5) rfl rfl
    ⟨rfl, by decide, rfl⟩ ⟨rfl, by decide, rfl⟩ (by decide) (by decide) (by decide) (by decide)

/-! ## The claims -/

/-- C1, amended: for a group whose `clockSkew` is below the greatest `Duration`
and an address without an entry in the store, `Ingest` adds the address exactly
when the version is `V1`, the timestamp lies within `clockSkew` of the clock
reading (boundary included, past and future alike) and the signature check
answers `(true, nil)`; every rejected announcement leaves the group, and so the
store, unchanged. In particular an announcement stamped `now - clockSkew - 1`
or `now + clockSkew + 1` is rejected, and for a positive `clockSkew` one stamped
`now - clockSkew + 1` or `now + clockSkew - 1` that carries version `V1` and a
good signature is accepted. -/
theorem Ingest_adds_iff (P : Protocol) (g : Group) (r : Readings) (a : Announcement)
    (hskew : g.clockSkew < maxDuration)
    (hno : g.addrSet.lookup (AddrFrom16 a.Data.AnnouncedAddress) = none) :
    ((g.Ingest P r a).1.addrSet.lookup (AddrFrom16 a.Data.AnnouncedAddress) ≠ none ↔
      (a.Data.Version = P.V1 ∧ |r.now - UnixMicro a.Data.Timestamp| ≤ g.clockSkew ∧
        P.CheckSignature a g.psk = (true, none))) ∧
    (¬ (a.Data.Version = P.V1 ∧ |r.now - UnixMicro a.Data.Timestamp| ≤ g.clockSkew ∧
        P.CheckSignature a g.psk = (true, none)) → (g.Ingest P r a).1 = g) ∧
    ((UnixMicro a.Data.Timestamp = r.now - g.clockSkew - 1 ∨
        UnixMicro a.Data.Timestamp = r.now + g.clockSkew + 1) → (g.Ingest P r a).1 = g) ∧
    (0 < g.clockSkew → a.Data.Version = P.V1 → P.CheckSignature a g.psk = (true, none) →
      (UnixMicro a.Data.Timestamp = r.now - g.clockSkew + 1 ∨
        UnixMicro a.Data.Timestamp = r.now + g.clockSkew - 1) →
      (g.Ingest P r a).1.addrSet.lookup (AddrFrom16 a.Data.AnnouncedAddress) ≠ none) := by
  have hacc : Accepted P g r.now a →
      (g.Ingest P r a).1.addrSet.lookup (AddrFrom16 a.Data.AnnouncedAddress) ≠ none := by
    intro h
    rw [Ingest_of_passes P g r a ((Passes_iff_Accepted P g r.now a hskew).mpr h),
      Get_of_lookup_none _ _ _ hno]
    simp only [lookup_Set_self]
    exact Option.some_ne_none _
  have hrej : ¬ Accepted P g r.now a → (g.Ingest P r a).1 = g := fun h =>
    Ingest_of_not_passes P g r a (fun hp => h ((Passes_iff_Accepted P g r.now a hskew).mp hp))
  refine ⟨⟨?_, hacc⟩, hrej, ?_, ?_⟩
  · intro h
    by_contra hn
    rw [hrej hn] at h
    exact h hno
  · intro h
    apply hrej
    rintro ⟨_, hs, _⟩
    have hs1 := (abs_le.mp hs).1
    have hs2 := (abs_le.mp hs).2
    simp only [Time, Duration] at *
    rcases h with h | h <;> rw [h] at hs1 hs2 <;> omega
  · intro hpos hv hc h
    apply hacc
    refine ⟨hv, abs_le.mpr ?_, hc⟩
    simp only [Time, Duration] at *
    rcases h with h | h <;> rw [h] <;> constructor <;> omega

/-- C1, evaluated: the ten-second group at clock reading 100 s takes an
announcement stamped exactly ten seconds earlier. -/
theorem Ingest_adds_iff_witness :
    demoGroup.clockSkew < maxDuration ∧
    demoGroup.addrSet.lookup (AddrFrom16 (demoAnnouncement 90000000 5).Data.AnnouncedAddress) = none ∧
    (demoGroup.Ingest demoProtocol
        { now := 100 * Second, atGet := 100 * Second + 150, atSet := 100 * Second + 300 }
        (demoAnnouncement 90000000 5)).1.addrSet.lookup
      (AddrFrom16 (demoAnnouncement 90000000 5).Data.AnnouncedAddress) ≠ none :=
  ⟨by decide, rfl, (Ingest_adds_iff demoProtocol demoGroup
    { now := 100 * Second, atGet := 100 * Second + 150, atSet := 100 * Second + 300 }
    (demoAnnouncement 90000000 5) (by decide) rfl).1.mpr
    ⟨rfl, by rw [abs_le]; decide, rfl⟩⟩

/-- C1 as stated fails: the group built from an expiry of the greatest
`Duration` has that `clockSkew`; at clock reading 1700000000000000808 ns an
announcement stamped `now - clockSkew - 1`, outside the window, is added to the
store, because the drift saturates at the greatest `Duration`. -/
theorem Ingest_adds_beyond_skew :
    GroupFromConfig hugeConfig = .ok hugeGroup ∧
    hugeGroup.addrSet.lookup (AddrFrom16 5) = none ∧
    UnixMicro (-7523372036854775) = 1700000000000000808 - hugeGroup.clockSkew - 1 ∧
    ¬ |1700000000000000808 - UnixMicro (-7523372036854775)| ≤ hugeGroup.clockSkew ∧
    (hugeGroup.Ingest demoProtocol (Readings.frozen 1700000000000000808)
      (demoAnnouncement (-7523372036854775) 5)).1.addrSet.lookup (AddrFrom16 5) ≠ none := by
  refine ⟨rfl, rfl, by decide, ?_, by decide⟩
  rw [abs_le]
  decide

/-- C5: a group built by `GroupFromConfig` has `0 < clockSkew ≤ expire`; its
`clockSkew` is the configured one when that lies in `(0, Expire]`, and is
`Expire` when the configured one is non-positive or exceeds `Expire`. -/
theorem GroupFromConfig_clockSkew (cfg : GroupConfig) (g : Group)
    (h : GroupFromConfig cfg = .ok g) :
    (0 < g.clockSkew ∧ g.clockSkew ≤ g.expire) ∧
    (0 < cfg.ClockSkew ∧ cfg.ClockSkew ≤ cfg.Expire → g.clockSkew = cfg.ClockSkew) ∧
    (cfg.ClockSkew ≤ 0 ∨ cfg.Expire < cfg.ClockSkew → g.clockSkew = cfg.Expire) := by
  have hne : ¬ (cfg.PSK = none ∨ cfg.Expire ≤ 0) := by
    intro hbad
    obtain ⟨e, he⟩ := (GroupFromConfig_error_iff cfg).mpr hbad
    rw [he] at h
    cases h
  cases hk : cfg.PSK with
  | none => exact absurd (Or.inl hk) hne
  | some k =>
    have hpos : 0 < cfg.Expire := not_le.mp (fun hle => hne (Or.inr hle))
    rw [GroupFromConfig_ok cfg k hk hpos] at h
    injection h with h
    subst h
    simp only [Time, Duration] at *
    refine ⟨?_, ?_, ?_⟩
    · split <;> constructor <;> omega
    · intro hin
      have : ¬ (cfg.ClockSkew ≤ 0 ∨ cfg.Expire < cfg.ClockSkew) := by push_neg; exact hin
      simp [this]
    · intro hout
      simp [hout]

/-- C5, evaluated: the ten-second configuration leaves the clock skew unset and
gets `clockSkew = expire`. -/
theorem GroupFromConfig_clockSkew_witness :
    GroupFromConfig demoConfig = .ok demoGroup ∧
    (0 < demoGroup.clockSkew ∧ demoGroup.clockSkew ≤ demoGroup.expire) ∧
    demoGroup.clockSkew = demoConfig.Expire :=
  ⟨rfl, (GroupFromConfig_clockSkew demoConfig demoGroup rfl).1,
    (GroupFromConfig_clockSkew demoConfig demoGroup rfl).2.2 (Or.inl (by decide))⟩

/-- C7, amended: for a group whose `clockSkew` is below the greatest `Duration`,
`Ingest` returns an error exactly when the signature check returns one, and
the check is consulted only for a version-`V1` announcement stamped inside the
skew window; a version mismatch, a clock-skew violation and a signature
mismatch `(false, nil)` each give `nil`; when an error is returned the group,
and so the store, is unchanged. -/
theorem Ingest_error_iff (P : Protocol) (g : Group) (r : Readings) (a : Announcement)
    (hskew : g.clockSkew < maxDuration) :
    ((g.Ingest P r a).2 ≠ none ↔
      (a.Data.Version = P.V1 ∧ |r.now - UnixMicro a.Data.Timestamp| ≤ g.clockSkew ∧
        (P.CheckSignature a g.psk).2 ≠ none)) ∧
    (a.Data.Version ≠ P.V1 → (g.Ingest P r a).2 = none) ∧
    (g.clockSkew < |r.now - UnixMicro a.Data.Timestamp| → (g.Ingest P r a).2 = none) ∧
    (P.CheckSignature a g.psk = (false, none) → (g.Ingest P r a).2 = none) ∧
    ((g.Ingest P r a).2 ≠ none → (g.Ingest P r a).1 = g) := by
  have hgate := gate_iff r.now (UnixMicro a.Data.Timestamp) g.clockSkew hskew
  refine ⟨?_, ?_, ?_, ?_, ?_⟩
  · rw [Ingest_snd]
    simp only [hgate]
    by_cases hg : a.Data.Version = P.V1 ∧ |r.now - UnixMicro a.Data.Timestamp| ≤ g.clockSkew
    · simp only [hg, and_self, if_true, true_and]
      cases (P.CheckSignature a g.psk).2 <;> simp
    · simp only [hg, if_false]
      constructor
      · intro h
        exact absurd rfl h
      · rintro ⟨h1, h2, _⟩
        exact absurd ⟨h1, h2⟩ hg
  · intro hv
    rw [Ingest_snd]
    simp [hv]
  · intro hs
    rw [Ingest_snd]
    simp only [hgate]
    simp [not_le.mpr hs]
  · intro hc
    rw [Ingest_snd, hc]
    simp
  · intro he
    rcases Ingest_cases P g r a with h | ⟨_, h, _⟩
    · exact h
    · exact absurd h he

/-- C7, evaluated: a ten-second group whose key is unusable gets an error back
from `Ingest` and keeps its store. -/
theorem Ingest_error_iff_witness :
    ({ demoGroup with psk := { key := [] } } : Group).clockSkew < maxDuration ∧
    ({ demoGroup with psk := { key := [] } }.Ingest demoProtocol (Readings.frozen (100 * Second))
        (demoAnnouncement 100000000 5)).2 ≠ none ∧
    ({ demoGroup with psk := { key := [] } }.Ingest demoProtocol (Readings.frozen (100 * Second))
        (demoAnnouncement 100000000 5)).1 = { demoGroup with psk := { key := [] } } :=
  ⟨by decide, by decide,
    (Ingest_error_iff demoProtocol { demoGroup with psk := { key := [] } }
      (Readings.frozen (100 * Second)) (demoAnnouncement 100000000 5) (by decide)).2.2.2.2
      (by decide)⟩

/-- C7 as stated fails: the group built from an expiry of the greatest
`Duration` and an unusable key has that `clockSkew`; at clock reading
1700000000 s an announcement stamped more than `clockSkew` in the future,
outside the window, still has its signature checked and `Ingest` returns the
error, because the drift saturates at the least `Duration`. -/
theorem Ingest_error_beyond_skew :
    GroupFromConfig { hugeConfig with PSK := some { key := [] } } =
      .ok { hugeGroup with psk := { key := [] } } ∧
    ¬ |1700000000 * Second - UnixMicro 10923372036854776| ≤
      ({ hugeGroup with psk := { key := [] } } : Group).clockSkew ∧
    ({ hugeGroup with psk := { key := [] } }.Ingest demoProtocol
      (Readings.frozen (1700000000 * Second)) (demoAnnouncement 10923372036854776 5)).2 ≠ none := by
  refine ⟨rfl, ?_, by decide⟩
  rw [abs_le]
  decide

/-- C8: `GroupFromConfig` returns an error, and no group, exactly when the key is
missing or the expiry is not positive; for every other configuration it returns
a group whose id, key, expiry and readiness delay are the configured ones. -/
theorem GroupFromConfig_result (cfg : GroupConfig) :
    ((∃ e, GroupFromConfig cfg = .error e) ↔ (cfg.PSK = none ∨ cfg.Expire ≤ 0)) ∧
    (∀ k, cfg.PSK = some k → 0 < cfg.Expire →
      ∃ g, GroupFromConfig cfg = .ok g ∧ g.id = cfg.ID ∧ g.psk = k ∧
        g.expire = cfg.Expire ∧ g.readinessDelay = cfg.ReadinessDelay) := by
  refine ⟨GroupFromConfig_error_iff cfg, ?_⟩
  intro k hk he
  exact ⟨_, GroupFromConfig_ok cfg k hk he, rfl, rfl, rfl, rfl⟩

/-- C8, evaluated: the ten-second configuration yields a group, and the same
configuration without a key yields none. -/
theorem GroupFromConfig_result_witness :
    (∃ g, GroupFromConfig demoConfig = .ok g ∧ g.id = demoConfig.ID ∧ g.psk = demoKey ∧
      g.expire = demoConfig.Expire ∧ g.readinessDelay = demoConfig.ReadinessDelay) ∧
    (∃ e, GroupFromConfig { demoConfig with PSK := none } = .error e) :=
  ⟨(GroupFromConfig_result demoConfig).2 demoKey rfl (by decide),
    (GroupFromConfig_result { demoConfig with PSK := none }).1.mpr (Or.inl rfl)⟩

/-- C9, amended: `Start` at `t0` sets `readyAt = t0 + readinessDelay`; `Ready`
at `t` is true exactly when `t > t0 + readinessDelay`, so it is false at every
reading up to `t0 + readinessDelay`, at `t0` itself when the delay is not
negative, and true from `t0` on when the delay is negative; any run of `Ingest`
calls after `Start` leaves `readyAt`, and with it the answer of `Ready`,
unchanged. -/
theorem Ready_after_Start (P : Protocol) (g : Group) (t0 t : Time)
    (ops : List (Readings × Announcement)) :
    (g.Start t0).readyAt = t0 + g.readinessDelay ∧
    ((g.Start t0).Ready t = true ↔ t0 + g.readinessDelay < t) ∧
    (t ≤ t0 + g.readinessDelay → (g.Start t0).Ready t = false) ∧
    (0 ≤ g.readinessDelay → (g.Start t0).Ready t0 = false) ∧
    (g.readinessDelay < 0 → t0 ≤ t → (g.Start t0).Ready t = true) ∧
    (IngestAll P (g.Start t0) ops).readyAt = t0 + g.readinessDelay ∧
    (IngestAll P (g.Start t0) ops).Ready t = (g.Start t0).Ready t := by
  have hr : (IngestAll P (g.Start t0) ops).readyAt = (g.Start t0).readyAt :=
    (IngestAll_fields P ops (g.Start t0)).2.2.2.2.2
  refine ⟨rfl, ?_, ?_, ?_, ?_, hr, ?_⟩
  · simp [Group.Ready, Group.Start, Add]
  · intro hd
    simp only [Group.Ready, Group.Start, Add, decide_eq_false_iff_not, not_lt, gt_iff_lt]
    exact hd
  · intro hd
    simp only [Group.Ready, Group.Start, Add, decide_eq_false_iff_not, not_lt, gt_iff_lt]
    simp only [Time, Duration] at *
    omega
  · intro hd ht
    simp only [Group.Ready, Group.Start, Add, decide_eq_true_eq, gt_iff_lt]
    simp only [Time, Duration] at *
    omega
  · simp only [Group.Ready, hr]

/-- C9, evaluated with a readiness delay of five seconds and a start at 100 s:
not ready at the start nor five seconds later, ready one nanosecond after
that, also after traffic. -/
theorem Ready_after_Start_witness :
    (demoGroup.Start (100 * Second)).Ready (100 * Second) = false ∧
    (demoGroup.Start (100 * Second)).Ready (105 * Second) = false ∧
    (IngestAll demoProtocol (demoGroup.Start (100 * Second))
      [(Readings.frozen (101 * Second), demoAnnouncement 101000000 5)]).Ready
        (105 * Second + 1) = true :=
  ⟨(Ready_after_Start demoProtocol demoGroup (100 * Second) (100 * Second) []).2.2.2.1
      (by decide),
    (Ready_after_Start demoProtocol demoGroup (100 * Second) (105 * Second) []).2.2.1
      (by decide),
    by decide⟩

/-- C9 as stated fails: `GroupFromConfig` accepts a readiness delay of minus
five seconds, and the group it returns is ready at the very reading of
`Start`. -/
theorem Ready_at_Start_negative_delay :
    GroupFromConfig hastyConfig = .ok hastyGroup ∧
    (hastyGroup.Start (100 * Second)).Ready (100 * Second) = true := by
  exact ⟨rfl, by decide⟩

/-- C4, amended: every item `List` returns is an (address, expiresAt) pair of an
entry the store holds, and when that entry carries a positive TTL its
`expiresAt` is not before the clock reading; conversely every entry of the
store with a positive TTL whose `expiresAt` is not before the clock reading,
equal to it included, is returned; a sweep of the expired entries at any
instant up to the clock reading changes nothing of what `List` returns. -/
theorem List_unexpired (g : Group) (now t : Time) (ht : t ≤ now) :
    (∀ it ∈ g.List now, ∃ item ∈ g.addrSet.values,
      item.key = it.address ∧ item.expiresAt = it.expiresAt ∧
        (0 < item.ttl → now ≤ it.expiresAt)) ∧
    (∀ item ∈ g.addrSet.values, 0 < item.ttl → now ≤ item.expiresAt →
      ({ address := item.key, expiresAt := item.expiresAt } : groupItem) ∈ g.List now) ∧
    Group.List { g with addrSet := g.addrSet.DeleteExpired t } now = g.List now := by
  refine ⟨?_, ?_, ?_⟩
  · intro it hit
    obtain ⟨item, hmem, hexp, rfl⟩ := (mem_List_iff g now it).mp hit
    refine ⟨item, hmem, rfl, rfl, ?_⟩
    intro hpos
    unfold Item.IsExpired at hexp
    have httl : ¬ item.ttl ≤ 0 := not_le.mpr hpos
    simp only [httl, if_false, decide_eq_false_iff_not, not_lt] at hexp
    exact hexp
  · intro item hmem hpos hle
    refine (mem_List_iff g now _).mpr ⟨item, hmem, ?_, rfl⟩
    have httl : ¬ item.ttl ≤ 0 := not_le.mpr hpos
    simp only [Item.IsExpired, httl, if_false, decide_eq_false_iff_not, not_lt]
    exact hle
  · unfold Group.List Cache.Items Cache.DeleteExpired
    simp only [List.filter_filter]
    congr 1
    apply List.filter_congr
    intro item _
    cases hnow : item.IsExpired now with
    | true => simp
    | false =>
      cases ht2 : item.IsExpired t with
      | false => simp
      | true =>
        rw [IsExpired_mono item t now ht ht2] at hnow
        cases hnow

/-- C4, evaluated on a store with an entry for address 5 expiring at 110 s and
one for address 6 expiring 400 ns after 115 s: at clock reading 112 s a sweep
at 111 s has removed the first entry and `List` returns the second either way;
at the very instant the second entry expires `List` still returns it. -/
theorem List_unexpired_witness :
    (111 * Second ≤ 112 * Second) ∧
    (demoTwo.addrSet.DeleteExpired (111 * Second)).values.length < demoTwo.addrSet.values.length ∧
    Group.List { demoTwo with addrSet := demoTwo.addrSet.DeleteExpired (111 * Second) }
      (112 * Second) = demoTwo.List (112 * Second) ∧
    demoTwo.List (112 * Second) = [{ address := 6, expiresAt := 115 * Second + 400 }] ∧
    ({ address := 6, expiresAt := 115 * Second + 400 } : groupItem) ∈
      demoTwo.List (115 * Second + 400) :=
  ⟨by decide, by decide,
    (List_unexpired demoTwo (112 * Second) (111 * Second) (by decide)).2.2, by decide,
    (List_unexpired demoTwo (115 * Second + 400) (111 * Second) (by decide)).2.1
      { key := 6, ttl := 10 * Second, expiresAt := 115 * Second + 400 } (by decide) (by decide)
      (by decide)⟩

/-- C4 as stated fails: at clock reading 110 s the entry whose `expiresAt` is
110 s, not later than the reading, is still listed. -/
theorem List_returns_entry_expiring_now :
    ({ address := 5, expiresAt := 110 * Second } : groupItem) ∈ demoStored.List (110 * Second) ∧
    ({ address := 5, expiresAt := 110 * Second } : groupItem).expiresAt ≤ 110 * Second := by
  decide

/-- C2, evaluated at the boundary: the ten-second group takes an announcement of
address 5 stamped 100 s at clock reading 105 s (candidate expiry 110 s, stored as
such), then one stamped 101 s at clock reading 111 s (candidate expiry 111 s,
drift exactly the clock skew, TTL 0). The store then holds the zero instant
with TTL 0: not the larger candidate 111 s, and lower than the 110 s held
before. Taken in the other order at clock readings 105 s and 106 s the same
two announcements leave 111 s. -/
theorem Ingest_boundary_lowers_expiry :
    (IngestAll demoProtocol demoGroup
      [(Readings.frozen (105 * Second), demoAnnouncement 100000000 5)]).addrSet.lookup 5 =
      some { key := 5, ttl := 5 * Second, expiresAt := 110 * Second } ∧
    (IngestAll demoProtocol demoGroup
      [(Readings.frozen (105 * Second), demoAnnouncement 100000000 5),
       (Readings.frozen (111 * Second), demoAnnouncement 101000000 5)]).addrSet.lookup 5 =
      some { key := 5, ttl := 0, expiresAt := zeroTime } ∧
    zeroTime < 110 * Second ∧
    (IngestAll demoProtocol demoGroup
      [(Readings.frozen (105 * Second), demoAnnouncement 101000000 5),
       (Readings.frozen (106 * Second), demoAnnouncement 100000000 5)]).addrSet.lookup 5 =
      some { key := 5, ttl := 6 * Second, expiresAt := 111 * Second } := by
  decide

/-- C3, evaluated at the boundary: the ten-second group (clock skew ten seconds)
takes at clock reading 100 s an announcement of address 5 stamped 90 s, so
`timestamp + expire` is 100 s and the TTL handed to `Set` is 0. The stored
entry has TTL 0 and the zero instant as `expiresAt`, not 100 s, and `List`
still returns the address at 111 s and at any later reading tried. -/
theorem Ingest_boundary_never_expires :
    demoBoundary.addrSet.values = [{ key := 5, ttl := 0, expiresAt := zeroTime }] ∧
    demoBoundary.List (100 * Second) = [{ address := 5, expiresAt := zeroTime }] ∧
    demoBoundary.List (111 * Second) = [{ address := 5, expiresAt := zeroTime }] ∧
    demoBoundary.List (1000000 * Second) = [{ address := 5, expiresAt := zeroTime }] := by
  decide

/-- C6, evaluated: a datagram of 57 zero bytes, which the decoder refuses with
an error, still reaches the callback (with the announcement the decoder left
behind); the loop goes on to the next datagram. -/
theorem readLoop_dispatches_undecodable :
    (demoCodec.UnmarshalBinary (List.replicate 57 0)).2 = some "unknown version" ∧
    demoSource.readLoop demoCodec
      [.datagram (List.replicate 57 0), .datagram (1 :: List.replicate 56 0), .cancelled] =
      [("lan", { Data := { Version := 0, Timestamp := 0, AnnouncedAddress := 0 }, Signature := [] }),
       ("lan", { Data := { Version := 1, Timestamp := 0, AnnouncedAddress := 0 }, Signature := [] })] := by
  decide

end Rgap
